import Mathlib

/-!
Verification development for the lessons background-task engine
(`backend/worker.py`, `backend/tasks/correction.py`, `backend/tasks/edition.py`,
`backend/tasks/summary.py`, `backend/search_utils.py`).

Modelling conventions:
* Python strings are lists of Unicode codepoints (`PyString := List Nat`);
  byte-level details never matter for the verified properties.
* Python floats (timestamps, scores, temperatures) are modelled as `ℚ`.
* External collaborators (the structured-output LLM, the plain LLM, and
  `difflib.SequenceMatcher.ratio`) are parameters: the LLM is a function from
  the data that determines its prompt to `Except`-style results (an `Except`
  error models a raised exception), and the similarity ratio is a function
  `PyString → PyString → ℚ`.
* Database loading/persistence (`Session`, `Lesson` lookup, commits) is outside
  the verified core: the embedded pipeline functions take the transcript
  segments directly, exactly as the source manipulates them after loading.
* `asyncio.gather` with a semaphore runs group tasks concurrently but returns
  the per-group results positionally; completion order is modelled by
  quantifying over permutations of the list of per-group results where a claim
  is about order independence.
-/

namespace Lessons

/-- Python strings as lists of Unicode codepoints. -/
abbrev PyString := List Nat

/-- Convert a Lean string literal to its codepoint list. -/
def pyStr (s : String) : PyString := s.data.map Char.toNat

/-- Python whitespace characters stripped by `str.strip()` (space, tab, LF, CR,
vertical tab, form feed; ASCII fragment). -/
def isPyWS (n : Nat) : Bool := n == 32 || n == 9 || n == 10 || n == 13 || n == 11 || n == 12

/-- Python `str.strip()`: remove leading and trailing whitespace. -/
def pyStrip (l : PyString) : PyString :=
  ((l.dropWhile isPyWS).reverse.dropWhile isPyWS).reverse

/-- Python `str.lower()` on one codepoint (ASCII fragment: `A`-`Z` map to
`a`-`z`, everything else is unchanged). -/
def pyLowerChar (n : Nat) : Nat := if 65 ≤ n ∧ n ≤ 90 then n + 32 else n

/-- Python `str.lower()` (ASCII fragment). -/
def pyLower (l : PyString) : PyString := l.map pyLowerChar

/-- Does the haystack start with the needle? (helper for substring search). -/
def startsWithB : PyString → PyString → Bool
  | [], _ => true
  | _ :: _, [] => false
  | a :: as, b :: bs => a == b && startsWithB as bs

/-- Python `needle in haystack` substring containment. -/
def isSubB (needle : PyString) : PyString → Bool
  | [] => startsWithB needle []
  | b :: bs => startsWithB needle (b :: bs) || isSubB needle bs

/-- Word characters of the regex `\w` (ASCII fragment: digits, letters,
underscore); `search_utils._tokens` applies it to lowercased text. -/
def isWordChar (n : Nat) : Bool :=
  decide ((48 ≤ n ∧ n ≤ 57) ∨ (65 ≤ n ∧ n ≤ 90) ∨ (97 ≤ n ∧ n ≤ 122) ∨ n = 95)

/-- `search_utils._tokens`: `re.findall(r"\w+", text.lower())` — the maximal
runs of word characters of the lowercased text. -/
def tokens (l : PyString) : List PyString :=
  ((pyLower l).splitOnP (fun c => !isWordChar c)).filter (fun t => !t.isEmpty)

/-- Python `" ".join(parts)`. -/
def joinSpace (ts : List PyString) : PyString := List.intercalate [32] ts

/-- `search_utils._ratio`: `0.0` when either side is empty, otherwise
`SequenceMatcher(None, a, b).ratio() * 100.0`; the external
`SequenceMatcher.ratio` is the parameter `sm`. -/
def ratioScore (sm : PyString → PyString → ℚ) (a b : PyString) : ℚ :=
  if a = [] ∨ b = [] then 0 else sm a b * 100

/-- The sliding-window loop of `fuzzy_segment_score`: fold `max` over the
window scores, returning early (second component `true`) as soon as the
running best reaches `95.0`. -/
def scanLoop (sm : PyString → PyString → ℚ) (q : PyString) :
    List PyString → ℚ → ℚ × Bool
  | [], best => (best, false)
  | w :: ws, best =>
    let best' := max best (ratioScore sm q w)
    if 95 ≤ best' then (best', true) else scanLoop sm q ws best'

/-- `search_utils.fuzzy_segment_score(query, segment_text)`: returns
`(score in [0,100], exact_substring_match)`. -/
def fuzzy_segment_score (sm : PyString → PyString → ℚ) (query segment_text : PyString) :
    ℚ × Bool :=
  let query_raw := pyStrip query
  if query_raw = [] then (0, false)
  else
    let seg_raw := segment_text
    if pyStrip seg_raw = [] then (0, false)
    else if isSubB (pyLower query_raw) (pyLower seg_raw) then (100, true)
    else
      let q_tokens := tokens query_raw
      let s_tokens := tokens seg_raw
      if q_tokens = [] ∨ s_tokens = [] then (0, false)
      else
        let q := joinSpace q_tokens
        let window_sizes : List Nat := ([0, 1, -1, 2, -2, 3] : List Int).filterMap (fun d =>
          let size : Int := (q_tokens.length : Int) + d
          if 1 ≤ size then some size.toNat else none)
        let max_len := s_tokens.length
        let windows : List PyString := (window_sizes.map (fun w =>
          if max_len < w then []
          else (List.range (max_len - w + 1)).map (fun i =>
            joinSpace ((s_tokens.drop i).take w)))).flatten
        match scanLoop sm q windows 0 with
        | (best, true) => (best, false)
        | (best, false) => (max best (ratioScore sm q (joinSpace s_tokens)), false)

/-- Transcript segment (`models.Segment`): start/end seconds and text. -/
structure Segment where
  start : ℚ
  «end» : ℚ
  text : PyString
deriving DecidableEq, Inhabited

/-- One match emitted by `find_matching_segments`:
`{start, end, text, score, exact}`. -/
structure MatchRec where
  start : ℚ
  «end» : ℚ
  text : PyString
  score : ℚ
  exact : Bool
deriving DecidableEq

/-- Sort order of `find_matching_segments`: ascending in the Python key
`(-score, start)`. -/
def matchLe (a b : MatchRec) : Prop :=
  -a.score < -b.score ∨ (-a.score = -b.score ∧ a.start ≤ b.start)

instance : DecidableRel matchLe := fun a b => by unfold matchLe; exact inferInstance

/-- The pre-sort match list of `find_matching_segments`: every segment whose
fuzzy score reaches the threshold contributes one record. -/
def matchesOf (sm : PyString → PyString → ℚ) (segs : List Segment)
    (q : PyString) (threshold : ℚ) : List MatchRec :=
  segs.filterMap (fun seg =>
    if threshold ≤ (fuzzy_segment_score sm q seg.text).1 then
      some ⟨seg.start, seg.«end», seg.text, (fuzzy_segment_score sm q seg.text).1,
        (fuzzy_segment_score sm q seg.text).2⟩
    else none)

/-- `search_utils.find_matching_segments(segments, query, threshold, max_matches)`:
empty input or blank query give `[]`; otherwise score each segment, keep those
at or above the threshold, sort stably by `(-score, start)` (Python's stable
`list.sort` is modelled by the stable `insertionSort`), and truncate to
`max_matches`. -/
def find_matching_segments (sm : PyString → PyString → ℚ) (segs : List Segment)
    (query : PyString) (threshold : ℚ) (max_matches : Nat) : List MatchRec :=
  if segs = [] then []
  else
    let q := pyStrip query
    if q = [] then []
    else (List.insertionSort matchLe (matchesOf sm segs q threshold)).take max_matches

/-- A similarity oracle that always answers `0` (used for concrete
instantiations of the external `SequenceMatcher` parameter). -/
def zeroSM : PyString → PyString → ℚ := fun _ _ => 0

/-- A similarity oracle that always answers `1` (a valid `ratio` value). -/
def oneSM : PyString → PyString → ℚ := fun _ _ => 1

/-- Contiguous grouping used by the batch processor:
`for i in range(0, len(segments), segments_per_group): groups.append(segments[i:i+k])`.
For `k ≥ 1` this is exactly the Python slicing loop. -/
def splitGroups (k : Nat) : List α → List (List α)
  | [] => []
  | x :: xs => (x :: xs.take (k - 1)) :: splitGroups k (xs.drop (k - 1))
termination_by l => l.length
decreasing_by simp; omega

/-- Input row of the correction structured-output contract
(`correction.SegmentInput`): a 1-based id and the original text. -/
structure SegmentInput where
  id : Int
  text : PyString
deriving DecidableEq

/-- Output row of the correction structured-output contract
(`correction.SegmentOutput`): the id matching the input and the corrected
text. -/
structure SegmentOutput where
  id : Int
  text : PyString
deriving DecidableEq

/-- The correction LLM collaborator: receives the correction prompt and the
numbered input segments (which together determine the full prompt string) and
either returns the structured segment list or raises. -/
abbrev CorrLLM := PyString → List SegmentInput → Except PyString (List SegmentOutput)

/-- The numbered input rows sent to the correction LLM: ids `1, 2, 3, ...`
within the group, paired with the group's segment texts. -/
def corrInputs (group : List (Nat × Segment)) : List SegmentInput :=
  group.enum.map (fun p => ⟨(p.1 : Int) + 1, p.2.2.text⟩)

/-- `correction.correct_segment_group`: maps the LLM's structured answer back
to `(original_index, corrected_text)` pairs, row `i` taking the answer whose
id is `i+1` and falling back to the original text when that id is missing; a
raised exception anywhere is caught and the group's original
`(index, original_text)` pairs are returned. -/
def correct_segment_group (llm : CorrLLM) (prompt : PyString)
    (group : List (Nat × Segment)) : List (Nat × PyString) :=
  match llm prompt (corrInputs group) with
  | .ok result =>
    group.enum.map (fun p =>
      match result.find? (fun s => s.id == (p.1 : Int) + 1) with
      | some s => (p.2.1, s.text)
      | none => (p.2.1, p.2.2.text))
  | .error _ => group.map (fun q => (q.1, q.2.text))

/-- The retry loop shared by `correct_segment_group_with_retry`,
`edit_segment_group_with_retry` and `generate_summary_with_retry`:
`for attempt in range(max_retries): try: return body(attempt) except: if last
attempt, re-raise`. Returns the final value together with the number of
attempts made. The backoff delays (exponential for rate-limit errors, fixed
otherwise) only pause execution and are not part of the value-level model. -/
def retryAux (f : Nat → Except PyString A) (maxRetries attempt : Nat) :
    Except PyString A × Nat :=
  match f attempt with
  | .ok a => (.ok a, attempt + 1)
  | .error e =>
    if attempt < maxRetries - 1 then retryAux f maxRetries (attempt + 1)
    else (.error e, attempt + 1)
termination_by maxRetries - attempt
decreasing_by omega

/-- Run the retry loop from attempt 0; with `max_retries = 0` the Python loop
body never runs and the trailing `raise Exception("Unknown error in retry
logic")` fires. -/
def retryRun (f : Nat → Except PyString A) (maxRetries : Nat) :
    Except PyString A × Nat :=
  if maxRetries = 0 then (.error (pyStr ("Unknown error in retry logic")), 0)
  else retryAux f maxRetries 0

/-- The rate-limit classifier of the retry loops: the lowercased exception
message contains one of `"rate limit"`, `"rate_limit"`, `"429"`,
`"too many requests"`, `"quota"`. -/
def is_rate_limit (msg : PyString) : Bool :=
  let m := pyLower msg
  isSubB (pyStr ("rate limit")) m || isSubB (pyStr ("rate_limit")) m ||
    isSubB (pyStr ("429")) m || isSubB (pyStr ("too many requests")) m ||
    isSubB (pyStr ("quota")) m

/-- `correction.correct_segment_group_with_retry` with the default
`max_retries = 5`: the body never raises, so the wrapper's value is whatever
the body returns on attempt 0. -/
def correct_segment_group_with_retry (llm : CorrLLM) (prompt : PyString)
    (group : List (Nat × Segment)) : Except PyString (List (Nat × PyString)) × Nat :=
  retryRun (fun _ => .ok (correct_segment_group llm prompt group)) 5

/-- `asyncio.gather` over per-group tasks: collect every group's value in
group order, or propagate a raised exception. -/
def gatherResults (F : α → Except PyString β) : List α → Except PyString (List β)
  | [] => .ok []
  | a :: as =>
    match F a with
    | .error e => .error e
    | .ok b =>
      match gatherResults F as with
      | .error e => .error e
      | .ok bs => .ok (b :: bs)

/-- Sort order of the correction reassembly: ascending original index
(`all_corrections.sort(key=lambda x: x[0])`). -/
def corrLe (a b : Nat × PyString) : Prop := a.1 ≤ b.1

instance : DecidableRel corrLe := fun a b => (inferInstance : Decidable (a.1 ≤ b.1))

instance : IsTotal (Nat × PyString) corrLe := ⟨fun a b => Nat.le_total a.1 b.1⟩

instance : IsTrans (Nat × PyString) corrLe := ⟨fun _ _ _ hab hbc => le_trans hab hbc⟩

/-- The reassembly step of `correct_transcript_async`: sort the flattened
`(original_index, corrected_text)` pairs by index (stable, like Python's
`list.sort`), and for every pair whose index is in range rebuild a segment
that keeps the original `start`/`end` and takes the corrected text. -/
def reassemble (segments : List Segment) (all_corrections : List (Nat × PyString)) :
    List Segment :=
  (List.insertionSort corrLe all_corrections).filterMap (fun p =>
    (segments.get? p.1).map (fun s => Segment.mk s.start s.«end» p.2))

/-- The batch-processing core of `correction.correct_transcript_async`:
enumerate the segments, split them into contiguous groups of
`segments_per_group`, run the retried group transform on every group
(concurrently in the source; the semaphore bounds in-flight groups but
`asyncio.gather` returns results positionally), flatten, sort by original
index and rebuild the corrected transcript. Lesson loading, config and
persistence are external to the verified core. -/
def correct_transcript_async (llm : CorrLLM) (prompt : PyString)
    (segments_per_group : Nat) (segments : List Segment) :
    Except PyString (List Segment) :=
  match gatherResults (fun g => (correct_segment_group_with_retry llm prompt g).1)
      (splitGroups segments_per_group segments.enum) with
  | .error e => .error e
  | .ok results => .ok (reassemble segments results.flatten)

/-- The single-call core of `summary.generate_summary_with_retry`: each
attempt builds `f"{summary_prompt}\n\nTranscript:\n{transcript_text}"` and
calls the plain LLM; the LLM collaborator may answer differently on different
attempts (parameter `attempt`). -/
def generate_summary_with_retry (llm : Nat → PyString → Except PyString PyString)
    (transcript_text summary_prompt : PyString) (max_retries : Nat) :
    Except PyString PyString × Nat :=
  retryRun (fun attempt =>
    llm attempt (summary_prompt ++ pyStr ("\n\nTranscript:\n") ++ transcript_text))
    max_retries

/-- Source citation of the edition structured-output contract
(`edition.SourceOutput`). -/
structure SourceOutput where
  author : PyString
  work : PyString
  reference : PyString
  text : PyString
  cited_excerpt : PyString
deriving DecidableEq

/-- Edited part of the edition structured-output contract
(`edition.EditedPartOutput`). -/
structure EditedPartOutput where
  start : ℚ
  «end» : ℚ
  text : PyString
  sources : List SourceOutput
deriving DecidableEq

/-- The edition LLM collaborator: receives the edition prompt and the group's
segments (which determine the full prompt string) and either returns the
structured parts list or raises. -/
abbrev EdLLM := PyString → List Segment → Except PyString (List EditedPartOutput)

/-- `edition.edit_segment_group`: returns the LLM's parts; on any caught
exception, degrades to a single part spanning `group[0].start ..
group[-1].end` with the space-joined original texts and no sources. With an
empty group the degraded branch itself raises (`group[0]` is an
`IndexError`), which propagates. -/
def edit_segment_group (llm : EdLLM) (prompt : PyString) (group : List Segment) :
    Except PyString (List EditedPartOutput) :=
  match llm prompt group with
  | .ok result => .ok result
  | .error _ =>
    match group with
    | [] => .error (pyStr ("list index out of range"))
    | g0 :: rest =>
      .ok [⟨g0.start, ((g0 :: rest).getLast (List.cons_ne_nil g0 rest)).«end»,
        joinSpace ((g0 :: rest).map Segment.text), []⟩]

/-- `edition.edit_segment_group_with_retry` with the default
`max_retries = 5`. -/
def edit_segment_group_with_retry (llm : EdLLM) (prompt : PyString)
    (group : List Segment) : Except PyString (List EditedPartOutput) × Nat :=
  retryRun (fun _ => edit_segment_group llm prompt group) 5

/-- The parts a (nonempty) group contributes to the edited transcript: the
LLM's parts on success, the single degraded part on a raised exception. -/
def edit_group_parts (llm : EdLLM) (prompt : PyString) (group : List Segment) :
    List EditedPartOutput :=
  match llm prompt group with
  | .ok result => result
  | .error _ =>
    match group with
    | [] => []
    | g0 :: rest =>
      [⟨g0.start, ((g0 :: rest).getLast (List.cons_ne_nil g0 rest)).«end»,
        joinSpace ((g0 :: rest).map Segment.text), []⟩]

/-- The batch-processing core of `edition.edit_transcript_async`: split the
source transcript into contiguous groups of `segments_per_group`, run the
retried group transform on every group, and concatenate all groups' part
lists in group order. -/
def edit_transcript_async (llm : EdLLM) (prompt : PyString)
    (segments_per_group : Nat) (segments : List Segment) :
    Except PyString (List EditedPartOutput) :=
  match gatherResults (fun g => (edit_segment_group_with_retry llm prompt g).1)
      (splitGroups segments_per_group segments) with
  | .error e => .error e
  | .ok results => .ok results.flatten

/-- Task status values of the worker state machine. -/
inductive TaskStatus
  | pending
  | running
  | completed
  | failed
deriving DecidableEq

/-- The persisted task record (`models.Task` fields the worker manipulates);
timestamps are seconds as `ℚ`, `result` is the JSON payload modelled as an
opaque message. -/
structure TaskRec where
  task_type : PyString
  status : TaskStatus
  start_date : Option ℚ
  end_date : Option ℚ
  duration : Option ℚ
  error : Option PyString
  result : Option PyString
deriving DecidableEq

/-- `worker.update_task_status`: set the status; stamp `start_date` on the
first transition to `running`; stamp `end_date` on the first transition into
`completed`/`failed` and, when `start_date` is set, compute
`duration = end_date - start_date`; then apply the keyword updates (`error`,
`result`). -/
def update_task_status (task : TaskRec) (status : TaskStatus) (now : ℚ)
    (error? result? : Option PyString) : TaskRec :=
  let t1 := { task with status := status }
  let t2 := if status = .running ∧ t1.start_date = none then
      { t1 with start_date := some now } else t1
  let t3 := if (status = .completed ∨ status = .failed) ∧ t2.end_date = none then
      match t2.start_date with
      | some s => { t2 with end_date := some now, duration := some (now - s) }
      | none => { t2 with end_date := some now }
    else t2
  let t4 := match error? with
    | some e => { t3 with error := some e }
    | none => t3
  match result? with
  | some r => { t4 with result := some r }
  | none => t4

/-- The four job kinds dispatched by `worker.process_task`. -/
inductive JobKind
  | transcription
  | correction
  | edition
  | summary
deriving DecidableEq

/-- Outcome of running a job handler's body: the job function returned True,
returned False, or an exception was raised (and re-raised by the handler). -/
inductive JobOutcome
  | success
  | failure
  | raised (msg : PyString)

/-- The `task_type` dispatch of `worker.process_task`. -/
def kindOf (ttype : PyString) : Option JobKind :=
  if ttype = pyStr ("transcription") then some .transcription
  else if ttype = pyStr ("correction") then some .correction
  else if ttype = pyStr ("edition") then some .edition
  else if ttype = pyStr ("summary") then some .summary
  else none

/-- Success message each handler stores in the task result. -/
def okMsgOf : JobKind → PyString
  | .transcription => pyStr ("Transcription completed successfully")
  | .correction => pyStr ("Correction completed successfully")
  | .edition => pyStr ("Edition completed successfully")
  | .summary => pyStr ("Summary generated successfully")

/-- Failure message each handler stores in the task error field when its job
function returns False. -/
def failMsgOf : JobKind → PyString
  | .transcription => pyStr ("Transcription failed")
  | .correction => pyStr ("Correction failed")
  | .edition => pyStr ("Edition failed")
  | .summary => pyStr ("Summary generation failed")

/-- One `process_*_task` handler (`worker.process_transcription_task` etc.):
marks the task completed or failed according to the job function's boolean
result, or re-raises the caught exception without touching the task. -/
def run_handler (outcome : JobOutcome) (k : JobKind) (task : TaskRec) (now : ℚ) :
    Except PyString TaskRec :=
  match outcome with
  | .success => .ok (update_task_status task .completed now none (some (okMsgOf k)))
  | .failure => .ok (update_task_status task .failed now (some (failMsgOf k)) none)
  | .raised m => .error m

/-- `worker.process_task`: mark the task running (time `t1`), dispatch on
`task_type`; an unknown type fails the task immediately with
`"Unknown task type: {task_type}"`; a handler exception fails the task with
the exception message (time `t2`). Returns the final task record and which
handler (if any) was invoked. -/
def process_task (outcomes : JobKind → JobOutcome) (task : TaskRec) (t1 t2 : ℚ) :
    TaskRec × Option JobKind :=
  let running := update_task_status task .running t1 none none
  match kindOf task.task_type with
  | some k =>
    match run_handler (outcomes k) k running t2 with
    | .ok t' => (t', some k)
    | .error m => (update_task_status running .failed t2 (some m) none, some k)
  | none =>
    (update_task_status running .failed t2
      (some (pyStr ("Unknown task type: ") ++ task.task_type)) none, none)

/-- Rank of a status in the forward order
`pending → running → {completed, failed}`. -/
def statusRank : TaskStatus → Nat
  | .pending => 0
  | .running => 1
  | .completed => 2
  | .failed => 2

/-- One legal forward step of the task state machine: the status rank strictly
increases (so terminal states have no successor and `completed`/`failed`
never swap), and a date that is already stamped is never changed. -/
def step_forward (a b : TaskRec) : Prop :=
  statusRank a.status < statusRank b.status ∧
    (∀ s, a.start_date = some s → b.start_date = some s) ∧
    (∀ s, a.end_date = some s → b.end_date = some s)

/-! ### Helper lemmas: retry loop -/

lemma retryAux_attempts_le (f : Nat → Except PyString A) (m : Nat) :
    ∀ a, a < m → (retryAux f m a).2 ≤ m := by
  have H : ∀ d a, a < m → m - a ≤ d → (retryAux f m a).2 ≤ m := by
    intro d
    induction d with
    | zero => intro a h1 h2; omega
    | succ d ih =>
      intro a h1 h2
      rw [retryAux]
      split
      · simpa using h1
      · split
        · exact ih (a + 1) (by omega) (by omega)
        · simpa using h1
  intro a ha
  exact H (m - a) a ha le_rfl

lemma retryAux_error_step (f : Nat → Except PyString A) (m a : Nat) (e : PyString)
    (hfa : f a = .error e) (h : a < m - 1) :
    retryAux f m a = retryAux f m (a + 1) := by
  rw [retryAux, hfa]
  dsimp only
  rw [if_pos h]

lemma retryAux_error_last (f : Nat → Except PyString A) (m a : Nat) (e : PyString)
    (hfa : f a = .error e) (h : ¬ a < m - 1) :
    retryAux f m a = (.error e, a + 1) := by
  rw [retryAux, hfa]
  dsimp only
  rw [if_neg h]

/-! ### Helper lemmas: update_task_status field behaviour -/

lemma update_task_status_status (t : TaskRec) (st : TaskStatus) (now : ℚ)
    (err? res? : Option PyString) :
    (update_task_status t st now err? res?).status = st := by
  unfold update_task_status
  cases err? <;> cases res? <;> dsimp only <;> (repeat (first | rfl | split))

lemma update_task_status_error_some (t : TaskRec) (st : TaskStatus) (now : ℚ)
    (e : PyString) (res? : Option PyString) :
    (update_task_status t st now (some e) res?).error = some e := by
  unfold update_task_status
  cases res? <;> dsimp only

lemma update_running_fresh (task : TaskRec) (t1 : ℚ) (hs : task.start_date = none) :
    update_task_status task .running t1 none none =
      { task with status := .running, start_date := some t1 } := by
  simp [update_task_status, hs]

lemma update_terminal_stamp (t : TaskRec) (st : TaskStatus) (now s : ℚ)
    (err? res? : Option PyString) (hst : st = .completed ∨ st = .failed)
    (hstart : t.start_date = some s) (hend : t.end_date = none) :
    (update_task_status t st now err? res?).status = st ∧
    (update_task_status t st now err? res?).start_date = some s ∧
    (update_task_status t st now err? res?).end_date = some now ∧
    (update_task_status t st now err? res?).duration = some (now - s) := by
  rcases hst with rfl | rfl <;> cases err? <;> cases res? <;>
    simp [update_task_status, hstart, hend]

/-! ### C2 -/

/-- C2: the retry wrapper (`retryRun` with the code's `MAX_RETRIES = 5`, shared
by `correct_segment_group_with_retry`, `edit_segment_group_with_retry` and
`generate_summary_with_retry`) makes at most 5 attempts of the wrapped body,
and when every attempt raises a rate-limit-class error, exactly 5 attempts are
made and the final attempt's error propagates to the caller. -/
theorem retry_rate_limit_exhaustion {A : Type} (f : Nat → Except PyString A) :
    (retryRun f 5).2 ≤ 5 ∧
    ((∀ t, t < 5 → ∃ e, f t = .error e ∧ is_rate_limit e = true) →
      ∃ e, f 4 = .error e ∧ is_rate_limit e = true ∧ retryRun f 5 = (.error e, 5)) := by
  constructor
  · rw [retryRun]
    rw [if_neg (by omega)]
    exact retryAux_attempts_le f 5 0 (by omega)
  · intro h
    obtain ⟨e0, he0, _⟩ := h 0 (by omega)
    obtain ⟨e1, he1, _⟩ := h 1 (by omega)
    obtain ⟨e2, he2, _⟩ := h 2 (by omega)
    obtain ⟨e3, he3, _⟩ := h 3 (by omega)
    obtain ⟨e4, he4, hr4⟩ := h 4 (by omega)
    refine ⟨e4, he4, hr4, ?_⟩
    rw [retryRun, if_neg (by omega)]
    calc retryAux f 5 0 = retryAux f 5 1 := retryAux_error_step f 5 0 e0 he0 (by omega)
      _ = retryAux f 5 2 := retryAux_error_step f 5 1 e1 he1 (by omega)
      _ = retryAux f 5 3 := retryAux_error_step f 5 2 e2 he2 (by omega)
      _ = retryAux f 5 4 := retryAux_error_step f 5 3 e3 he3 (by omega)
      _ = (.error e4, 5) := retryAux_error_last f 5 4 e4 he4 (by omega)

/-- Witness for C2: a body that always raises a `429` error is attempted
exactly 5 times and the error propagates. -/
theorem retry_rate_limit_exhaustion_witness :
    (retryRun (fun _ : Nat => (.error (pyStr ("429")) : Except PyString Unit)) 5).2 ≤ 5 ∧
    retryRun (fun _ : Nat => (.error (pyStr ("429")) : Except PyString Unit)) 5 =
      (.error (pyStr ("429")), 5) := by
  have h := retry_rate_limit_exhaustion (fun _ : Nat => (.error (pyStr ("429")) : Except PyString Unit))
  refine ⟨h.1, ?_⟩
  obtain ⟨e, he, -, heq⟩ := h.2 (fun t _ => ⟨pyStr ("429"), rfl, by decide⟩)
  obtain rfl : pyStr ("429") = e := by simpa using he
  exact heq

/-! ### C10 -/

/-- C10: `correct_segment_group` never raises — every exception from the LLM
call is caught inside it and the group's original `(index, text)` pairs are
returned — so `correct_segment_group_with_retry` returns the body's value
after exactly one attempt, never sleeping or re-attempting. -/
theorem correct_segment_group_total (llm : CorrLLM) (prompt : PyString)
    (group : List (Nat × Segment)) :
    correct_segment_group_with_retry llm prompt group =
      (.ok (correct_segment_group llm prompt group), 1) ∧
    (∀ e, llm prompt (corrInputs group) = .error e →
      correct_segment_group llm prompt group = group.map (fun q => (q.1, q.2.text))) := by
  constructor
  · rw [correct_segment_group_with_retry, retryRun, if_neg (by omega), retryAux]
  · intro e he
    rw [correct_segment_group, he]

/-- Witness for C10: a group of one segment whose LLM call raises is returned
unchanged after a single attempt. -/
theorem correct_segment_group_total_witness :
    correct_segment_group_with_retry (fun _ _ => .error (pyStr ("boom"))) (pyStr ("p"))
        [(0, ⟨0, 1, pyStr ("hi")⟩)] =
      (.ok (correct_segment_group (fun _ _ => .error (pyStr ("boom"))) (pyStr ("p"))
        [(0, ⟨0, 1, pyStr ("hi")⟩)]), 1) ∧
    correct_segment_group (fun _ _ => .error (pyStr ("boom"))) (pyStr ("p"))
        [(0, ⟨0, 1, pyStr ("hi")⟩)] = [(0, pyStr ("hi"))] := by
  have h := correct_segment_group_total (fun _ _ => .error (pyStr ("boom"))) (pyStr ("p"))
    [(0, ⟨0, 1, pyStr ("hi")⟩)]
  exact ⟨h.1, h.2 (pyStr ("boom")) rfl⟩

/-! ### C3 -/

/-- C3: a freshly claimed pending task moves only forward through
`pending → running → {completed, failed}`: the `running` update stamps
`start_date` once, the terminal update stamps `end_date` once, already-stamped
dates are never changed, and the final duration is exactly
`end_date - start_date`. -/
theorem task_lifecycle_forward (outcomes : JobKind → JobOutcome) (task : TaskRec)
    (t1 t2 : ℚ) (hp : task.status = .pending) (hs : task.start_date = none)
    (he : task.end_date = none) :
    step_forward task (update_task_status task .running t1 none none) ∧
    step_forward (update_task_status task .running t1 none none)
      (process_task outcomes task t1 t2).1 ∧
    (update_task_status task .running t1 none none).status = .running ∧
    (update_task_status task .running t1 none none).start_date = some t1 ∧
    (update_task_status task .running t1 none none).end_date = none ∧
    ((process_task outcomes task t1 t2).1.status = .completed ∨
      (process_task outcomes task t1 t2).1.status = .failed) ∧
    (process_task outcomes task t1 t2).1.start_date = some t1 ∧
    (process_task outcomes task t1 t2).1.end_date = some t2 ∧
    (process_task outcomes task t1 t2).1.duration = some (t2 - t1) := by
  have hrun : update_task_status task .running t1 none none =
      { task with status := .running, start_date := some t1 } :=
    update_running_fresh task t1 hs
  have hfin : ∃ st err? res?, (st = TaskStatus.completed ∨ st = TaskStatus.failed) ∧
      (process_task outcomes task t1 t2).1 =
        update_task_status { task with status := .running, start_date := some t1 }
          st t2 err? res? := by
    unfold process_task
    rw [hrun]
    dsimp only
    cases kindOf task.task_type with
    | none =>
      exact ⟨.failed, some (pyStr ("Unknown task type: ") ++ task.task_type), none,
        Or.inr rfl, rfl⟩
    | some k =>
      rcases ho : outcomes k with _ | _ | m
      · exact ⟨.completed, none, some (okMsgOf k), Or.inl rfl, by simp [run_handler, ho]⟩
      · exact ⟨.failed, some (failMsgOf k), none, Or.inr rfl, by simp [run_handler, ho]⟩
      · exact ⟨.failed, some m, none, Or.inr rfl, by simp [run_handler, ho]⟩
  obtain ⟨st, err?, res?, hst, hfeq⟩ := hfin
  have hfacts := update_terminal_stamp { task with status := .running, start_date := some t1 }
    st t2 t1 err? res? hst rfl he
  rw [hrun, hfeq]
  obtain ⟨hf1, hf2, hf3, hf4⟩ := hfacts
  refine ⟨?_, ?_, rfl, rfl, he, ?_, hf2, hf3, hf4⟩
  · refine ⟨by rw [hp]; simp [statusRank], ?_, ?_⟩
    · intro s hss; rw [hs] at hss; cases hss
    · intro s hse; rw [he] at hse; cases hse
  · refine ⟨?_, ?_, ?_⟩
    · rw [hf1]; rcases hst with rfl | rfl <;> simp [statusRank]
    · intro s hss
      obtain rfl : t1 = s := by simpa using hss
      exact hf2
    · intro s hse; simp [he] at hse
  · rw [hf1]; exact hst

/-- Witness for C3: a fresh pending summary task with a successful handler,
started at time 3 and finished at time 7. -/
theorem task_lifecycle_forward_witness :
    step_forward ⟨pyStr ("summary"), .pending, none, none, none, none, none⟩
      (update_task_status ⟨pyStr ("summary"), .pending, none, none, none, none, none⟩
        .running 3 none none) ∧
    step_forward (update_task_status ⟨pyStr ("summary"), .pending, none, none, none, none, none⟩
        .running 3 none none)
      (process_task (fun _ => .success)
        ⟨pyStr ("summary"), .pending, none, none, none, none, none⟩ 3 7).1 ∧
    (update_task_status ⟨pyStr ("summary"), .pending, none, none, none, none, none⟩
        .running 3 none none).status = .running ∧
    (update_task_status ⟨pyStr ("summary"), .pending, none, none, none, none, none⟩
        .running 3 none none).start_date = some 3 ∧
    (update_task_status ⟨pyStr ("summary"), .pending, none, none, none, none, none⟩
        .running 3 none none).end_date = none ∧
    ((process_task (fun _ => .success)
        ⟨pyStr ("summary"), .pending, none, none, none, none, none⟩ 3 7).1.status = .completed ∨
      (process_task (fun _ => .success)
        ⟨pyStr ("summary"), .pending, none, none, none, none, none⟩ 3 7).1.status = .failed) ∧
    (process_task (fun _ => .success)
        ⟨pyStr ("summary"), .pending, none, none, none, none, none⟩ 3 7).1.start_date = some 3 ∧
    (process_task (fun _ => .success)
        ⟨pyStr ("summary"), .pending, none, none, none, none, none⟩ 3 7).1.end_date = some 7 ∧
    (process_task (fun _ => .success)
        ⟨pyStr ("summary"), .pending, none, none, none, none, none⟩ 3 7).1.duration = some (7 - 3) :=
  task_lifecycle_forward (fun _ => .success)
    ⟨pyStr ("summary"), .pending, none, none, none, none, none⟩ 3 7 rfl rfl rfl

/-! ### C5 -/

/-- C5: dequeuing a task whose `task_type` is none of `transcription`,
`correction`, `edition`, `summary` immediately fails the task with an error
message naming the unknown type, and no job handler is invoked. -/
theorem unknown_task_type_fails (outcomes : JobKind → JobOutcome) (task : TaskRec)
    (t1 t2 : ℚ)
    (h1 : task.task_type ≠ pyStr ("transcription"))
    (h2 : task.task_type ≠ pyStr ("correction"))
    (h3 : task.task_type ≠ pyStr ("edition"))
    (h4 : task.task_type ≠ pyStr ("summary")) :
    (process_task outcomes task t1 t2).2 = none ∧
    (process_task outcomes task t1 t2).1.status = .failed ∧
    (process_task outcomes task t1 t2).1.error =
      some (pyStr ("Unknown task type: ") ++ task.task_type) := by
  have hk : kindOf task.task_type = none := by
    unfold kindOf
    rw [if_neg h1, if_neg h2, if_neg h3, if_neg h4]
  unfold process_task
  rw [hk]
  exact ⟨rfl, update_task_status_status _ _ _ _ _, update_task_status_error_some _ _ _ _ _⟩

/-- Witness for C5: a pending task of type `frobnicate` fails immediately with
the descriptive error and no handler runs. -/
theorem unknown_task_type_fails_witness :
    (process_task (fun _ => .success)
      ⟨pyStr ("frobnicate"), .pending, none, none, none, none, none⟩ 0 1).2 = none ∧
    (process_task (fun _ => .success)
      ⟨pyStr ("frobnicate"), .pending, none, none, none, none, none⟩ 0 1).1.status = .failed ∧
    (process_task (fun _ => .success)
      ⟨pyStr ("frobnicate"), .pending, none, none, none, none, none⟩ 0 1).1.error =
      some (pyStr ("Unknown task type: ") ++ pyStr ("frobnicate")) :=
  unknown_task_type_fails (fun _ => .success)
    ⟨pyStr ("frobnicate"), .pending, none, none, none, none, none⟩ 0 1
    (by decide) (by decide) (by decide) (by decide)

/-! ### Helper lemmas: strings, stripping, substring containment -/

lemma dropWhile_head_false {α} {p : α → Bool} :
    ∀ {l a t}, List.dropWhile p l = a :: t → p a = false := by
  intro l
  induction l with
  | nil => intro a t h; cases h
  | cons c cs ih =>
    intro a t h
    rw [List.dropWhile_cons] at h
    split at h
    · exact ih h
    · rename_i hc
      cases h
      simpa using hc

lemma dropWhile_getLast? {α} {p : α → Bool} :
    ∀ l : List α, List.dropWhile p l ≠ [] →
      (List.dropWhile p l).getLast? = l.getLast? := by
  intro l
  induction l with
  | nil => intro h; exact absurd rfl h
  | cons c cs ih =>
    intro h
    rw [List.dropWhile_cons] at h ⊢
    split
    · rename_i hc
      rw [if_pos hc] at h
      rw [ih h]
      cases cs with
      | nil => exact absurd rfl h
      | cons d ds => rw [List.getLast?_cons_cons]
    · rfl

lemma pyStrip_eq_nil_iff (l : PyString) :
    pyStrip l = [] ↔ ∀ c ∈ l, isPyWS c = true := by
  unfold pyStrip
  rw [List.reverse_eq_nil_iff, List.dropWhile_eq_nil_iff]
  constructor
  · intro h c hc
    have hsplit := List.takeWhile_append_dropWhile (p := isPyWS) (l := l)
    rcases List.mem_append.1 (by rw [hsplit]; exact hc) with h1 | h2
    · exact List.mem_takeWhile_imp h1
    · exact h c (List.mem_reverse.2 h2)
  · intro h c hc
    exact h c ((List.dropWhile_suffix isPyWS).subset (List.mem_reverse.1 hc))

lemma pyStrip_has_nonws (l : PyString) (h : pyStrip l ≠ []) :
    ∃ c ∈ pyStrip l, isPyWS c = false := by
  cases hD : List.dropWhile isPyWS (List.dropWhile isPyWS l).reverse with
  | nil => exact absurd (by unfold pyStrip; rw [hD]; rfl) h
  | cons a t =>
    refine ⟨a, ?_, dropWhile_head_false hD⟩
    unfold pyStrip
    rw [hD]
    exact List.mem_reverse.2 (List.mem_cons_self a t)

lemma pyStrip_idem (l : PyString) : pyStrip (pyStrip l) = pyStrip l := by
  by_cases h : pyStrip l = []
  · rw [h]; rfl
  · have hBrev : pyStrip l = (List.dropWhile isPyWS (List.dropWhile isPyWS l).reverse).reverse := rfl
    set A := List.dropWhile isPyWS l with hA_def
    set B := List.dropWhile isPyWS A.reverse with hB_def
    have hBne : B ≠ [] := by
      intro hB
      exact h (by rw [hBrev, hB]; rfl)
    obtain ⟨a, t, hA⟩ : ∃ a t, A = a :: t := by
      cases hAe : A with
      | nil =>
        exfalso
        apply hBne
        rw [hB_def, hAe]
        rfl
      | cons a t => exact ⟨a, t, rfl⟩
    have ha : isPyWS a = false := dropWhile_head_false (hA_def ▸ hA)
    have h1 : B.reverse.head? = some a := by
      rw [List.head?_reverse, hB_def]
      rw [dropWhile_getLast? _ (hB_def ▸ hBne), List.getLast?_reverse, hA, List.head?_cons]
    have h2 : List.dropWhile isPyWS B.reverse = B.reverse := by
      cases hBr : B.reverse with
      | nil => rfl
      | cons x xs =>
        have hxa : x = a := by
          rw [hBr, List.head?_cons] at h1
          simpa using h1
        rw [List.dropWhile_cons, hxa, ha]
        simp
    obtain ⟨b, bs, hB⟩ : ∃ b bs, B = b :: bs := by
      cases hBe : B with
      | nil => exact absurd hBe hBne
      | cons b bs => exact ⟨b, bs, rfl⟩
    have hb : isPyWS b = false := dropWhile_head_false (hB_def ▸ hB)
    have h3 : List.dropWhile isPyWS B = B := by
      rw [hB, List.dropWhile_cons, hb]
      simp
    show ((List.dropWhile isPyWS (pyStrip l)).reverse.dropWhile isPyWS).reverse = pyStrip l
    rw [hBrev, h2, List.reverse_reverse, h3]

lemma startsWithB_subset : ∀ (n h : PyString), startsWithB n h = true → ∀ x ∈ n, x ∈ h := by
  intro n
  induction n with
  | nil => intro h _ x hx; cases hx
  | cons a as ih =>
    intro h hs x hx
    cases h with
    | nil => rw [startsWithB] at hs; cases hs
    | cons b bs =>
      rw [startsWithB, Bool.and_eq_true, beq_iff_eq] at hs
      rcases List.mem_cons.1 hx with rfl | hx
      · rw [hs.1]; exact List.mem_cons_self b bs
      · exact List.mem_cons_of_mem b (ih bs hs.2 x hx)

lemma isSubB_subset : ∀ (h n : PyString), isSubB n h = true → ∀ x ∈ n, x ∈ h := by
  intro h
  induction h with
  | nil =>
    intro n hs x hx
    cases n with
    | nil => cases hx
    | cons a as => rw [isSubB, startsWithB] at hs; cases hs
  | cons b bs ih =>
    intro n hs x hx
    rw [isSubB, Bool.or_eq_true] at hs
    rcases hs with hs | hs
    · exact startsWithB_subset n (b :: bs) hs x hx
    · exact List.mem_cons_of_mem b (ih n hs x hx)

lemma isPyWS_pyLowerChar (n : Nat) : isPyWS (pyLowerChar n) = isPyWS n := by
  unfold pyLowerChar
  split
  · rename_i hn
    have h1 : isPyWS (n + 32) = false := by simp [isPyWS]; omega
    have h2 : isPyWS n = false := by simp [isPyWS]; omega
    rw [h1, h2]
  · rfl

/-! ### Helper lemmas: fuzzy score bounds and guard branches -/

lemma ratioScore_bounds (sm : PyString → PyString → ℚ)
    (hsm : ∀ a b, 0 ≤ sm a b ∧ sm a b ≤ 1) (a b : PyString) :
    0 ≤ ratioScore sm a b ∧ ratioScore sm a b ≤ 100 := by
  unfold ratioScore
  split
  · exact ⟨le_refl 0, by norm_num⟩
  · obtain ⟨h0, h1⟩ := hsm a b
    constructor
    · positivity
    · nlinarith

lemma scanLoop_bounds (sm : PyString → PyString → ℚ)
    (hsm : ∀ a b, 0 ≤ sm a b ∧ sm a b ≤ 1) (q : PyString) :
    ∀ (ws : List PyString) (best : ℚ), 0 ≤ best → best ≤ 100 →
      0 ≤ (scanLoop sm q ws best).1 ∧ (scanLoop sm q ws best).1 ≤ 100 := by
  intro ws
  induction ws with
  | nil => intro best h0 h1; exact ⟨h0, h1⟩
  | cons w ws ih =>
    intro best h0 h1
    simp only [scanLoop]
    have hr := ratioScore_bounds sm hsm q w
    have hb0 : 0 ≤ max best (ratioScore sm q w) := le_trans h0 (le_max_left _ _)
    have hb1 : max best (ratioScore sm q w) ≤ 100 := max_le h1 hr.2
    split
    · exact ⟨hb0, hb1⟩
    · exact ih _ hb0 hb1

lemma scanLoop_result_bounds (sm : PyString → PyString → ℚ)
    (hsm : ∀ a b, 0 ≤ sm a b ∧ sm a b ≤ 1) (q : PyString) (ws : List PyString)
    (best0 : ℚ) (r : ℚ × Bool) (h0 : 0 ≤ best0) (h1 : best0 ≤ 100)
    (heq : scanLoop sm q ws best0 = r) : 0 ≤ r.1 ∧ r.1 ≤ 100 :=
  heq ▸ scanLoop_bounds sm hsm q ws best0 h0 h1

lemma fuzzy_blank_text (sm : PyString → PyString → ℚ) (q t : PyString)
    (h : pyStrip t = []) : fuzzy_segment_score sm q t = (0, false) := by
  simp only [fuzzy_segment_score]
  split <;> rfl

/-! ### C9 -/

/-- C9: for any similarity oracle valued in `[0, 1]` (as
`SequenceMatcher.ratio` is), `fuzzy_segment_score` returns a score in
`[0, 100]`, and it reports an exact match only when the score is exactly
100. -/
theorem fuzzy_score_bounds (sm : PyString → PyString → ℚ)
    (hsm : ∀ a b, 0 ≤ sm a b ∧ sm a b ≤ 1) (query segment_text : PyString) :
    0 ≤ (fuzzy_segment_score sm query segment_text).1 ∧
    (fuzzy_segment_score sm query segment_text).1 ≤ 100 ∧
    ((fuzzy_segment_score sm query segment_text).2 = true →
      (fuzzy_segment_score sm query segment_text).1 = 100) := by
  simp only [fuzzy_segment_score]
  split
  · exact ⟨le_refl 0, by norm_num, by intro h; cases h⟩
  · split
    · exact ⟨le_refl 0, by norm_num, by intro h; cases h⟩
    · split
      · exact ⟨by norm_num, le_refl 100, fun _ => rfl⟩
      · split
        · exact ⟨le_refl 0, by norm_num, by intro h; cases h⟩
        · split
          · rename_i best hsl
            have hb := scanLoop_result_bounds sm hsm _ _ _ _ (le_refl 0) (by norm_num) hsl
            exact ⟨hb.1, hb.2, by intro h; cases h⟩
          · rename_i best hsl
            have hb := scanLoop_result_bounds sm hsm _ _ _ _ (le_refl 0) (by norm_num) hsl
            have hr := ratioScore_bounds sm hsm (joinSpace (tokens (pyStrip query)))
              (joinSpace (tokens segment_text))
            refine ⟨le_trans hb.1 (le_max_left _ _), max_le hb.2 hr.2, by intro h; cases h⟩

/-- Witness for C9: the constant similarity oracle `1` on a concrete query and
segment text. -/
theorem fuzzy_score_bounds_witness :
    0 ≤ (fuzzy_segment_score oneSM (pyStr ("alpha")) (pyStr ("beta gamma"))).1 ∧
    (fuzzy_segment_score oneSM (pyStr ("alpha")) (pyStr ("beta gamma"))).1 ≤ 100 ∧
    ((fuzzy_segment_score oneSM (pyStr ("alpha")) (pyStr ("beta gamma"))).2 = true →
      (fuzzy_segment_score oneSM (pyStr ("alpha")) (pyStr ("beta gamma"))).1 = 100) :=
  fuzzy_score_bounds oneSM (fun _ _ => ⟨zero_le_one, le_refl 1⟩)
    (pyStr ("alpha")) (pyStr ("beta gamma"))

/-! ### C6 -/

/-- Counterexample to C6 as stated: the empty (or all-whitespace) query strips
to the empty string, which is a substring of every segment text (Python's
`"" in s` is `True`, and `isSubB [] _ = true`), yet `fuzzy_segment_score`
returns `(0, false)` — not `(100, true)` — and `find_matching_segments`
emits nothing. -/
theorem exact_substring_match_counterexample :
    isSubB (pyLower (pyStrip (pyStr ("")))) (pyLower (pyStr ("a"))) = true ∧
    fuzzy_segment_score zeroSM (pyStr ("")) (pyStr ("a")) = (0, false) ∧
    find_matching_segments zeroSM [⟨0, 1, pyStr ("a")⟩] (pyStr ("")) 72 50 = [] := by
  refine ⟨by decide, by decide, by decide⟩

set_option maxHeartbeats 1000000 in
/-- C6 (amended): when the stripped query is non-empty and is a
case-insensitive substring of the raw segment text, `fuzzy_segment_score`
returns score 100 with `exact = true`; and `find_matching_segments` emits that
segment as an exact match with score 100 provided the threshold is at most 100
and no more than `max_matches` segments reach the threshold. -/
theorem exact_substring_match (sm : PyString → PyString → ℚ) (segs : List Segment)
    (seg : Segment) (query : PyString) (th : ℚ) (mm : Nat)
    (hseg : seg ∈ segs) (hq : pyStrip query ≠ [])
    (hsub : isSubB (pyLower (pyStrip query)) (pyLower seg.text) = true)
    (hth : th ≤ 100)
    (hcount : (matchesOf sm segs (pyStrip query) th).length ≤ mm) :
    fuzzy_segment_score sm query seg.text = (100, true) ∧
    (⟨seg.start, seg.«end», seg.text, 100, true⟩ : MatchRec) ∈
      find_matching_segments sm segs query th mm := by
  have hts : pyStrip seg.text ≠ [] := by
    obtain ⟨c, hcmem, hcns⟩ := pyStrip_has_nonws query hq
    have h1 : pyLowerChar c ∈ pyLower (pyStrip query) := List.mem_map_of_mem _ hcmem
    have h2 : pyLowerChar c ∈ pyLower seg.text := isSubB_subset _ _ hsub _ h1
    obtain ⟨d, hdmem, hdeq⟩ := List.mem_map.1 h2
    intro hnil
    have hall := (pyStrip_eq_nil_iff seg.text).1 hnil d hdmem
    have h3 : isPyWS (pyLowerChar d) = false := by rw [hdeq, isPyWS_pyLowerChar]; exact hcns
    rw [isPyWS_pyLowerChar, hall] at h3
    cases h3
  have hfq : fuzzy_segment_score sm query seg.text = (100, true) := by
    simp only [fuzzy_segment_score]
    split
    · rename_i hcon; exact absurd hcon hq
    · rfl
  have hfq2 : fuzzy_segment_score sm (pyStrip query) seg.text = (100, true) := by
    simp only [fuzzy_segment_score, pyStrip_idem]
    split
    · rename_i hcon; exact absurd hcon hq
    · rfl
  refine ⟨hfq, ?_⟩
  have hmem : (⟨seg.start, seg.«end», seg.text, 100, true⟩ : MatchRec) ∈
      matchesOf sm segs (pyStrip query) th := by
    apply List.mem_filterMap.2
    refine ⟨seg, hseg, ?_⟩
    simp only [hfq2]
    rw [if_pos hth]
  have hsegsne : segs ≠ [] := List.ne_nil_of_mem hseg
  have hperm := List.perm_insertionSort matchLe (matchesOf sm segs (pyStrip query) th)
  have hlen : (List.insertionSort matchLe (matchesOf sm segs (pyStrip query) th)).length ≤ mm :=
    le_trans (le_of_eq hperm.length_eq) hcount
  simp only [find_matching_segments]
  split
  · rename_i hcon; exact absurd hcon hsegsne
  · rw [List.take_of_length_le hlen]
    exact hperm.mem_iff.2 hmem

/-- Witness for C6 (amended): the spec's own scenario — query `"bonjour"`
against segment text `"Bonjour tout le monde"` with the default threshold 72
and `max_matches` 50. -/
theorem exact_substring_match_witness :
    fuzzy_segment_score zeroSM (pyStr ("bonjour")) (pyStr ("Bonjour tout le monde")) =
      (100, true) ∧
    (⟨0, 10, pyStr ("Bonjour tout le monde"), 100, true⟩ : MatchRec) ∈
      find_matching_segments zeroSM
        [⟨0, 10, pyStr ("Bonjour tout le monde")⟩] (pyStr ("bonjour")) 72 50 :=
  exact_substring_match zeroSM [⟨0, 10, pyStr ("Bonjour tout le monde")⟩]
    ⟨0, 10, pyStr ("Bonjour tout le monde")⟩ (pyStr ("bonjour")) 72 50
    (by decide) (by decide) (by decide) (by decide) (by decide)

/-! ### C7 -/

/-- Counterexample to C7 as stated: at `threshold = 0` (allowed by the claim's
range `[0, 100]`), a segment whose text is whitespace only scores `0 ≥ 0` and
IS emitted as a match by `find_matching_segments`. -/
theorem find_blank_guard_counterexample :
    find_matching_segments zeroSM [⟨0, 1, pyStr (" ")⟩] (pyStr ("a")) 0 50 =
      [⟨0, 1, pyStr (" "), 0, false⟩] := by
  decide

/-- C7 (amended): a blank (empty or whitespace-only) query yields no matches
for any threshold; and for every strictly positive threshold, no match is
ever emitted for a segment whose text is empty or whitespace-only. -/
theorem find_blank_guard (sm : PyString → PyString → ℚ) (segs : List Segment)
    (query : PyString) (th : ℚ) (mm : Nat) :
    (pyStrip query = [] → find_matching_segments sm segs query th mm = []) ∧
    (0 < th → ∀ m ∈ find_matching_segments sm segs query th mm,
      pyStrip m.text ≠ []) := by
  constructor
  · intro hq
    simp only [find_matching_segments]
    split <;> rfl
  · intro hth m hm
    simp only [find_matching_segments] at hm
    by_cases hsegs : segs = []
    · rw [if_pos hsegs] at hm; simp at hm
    · rw [if_neg hsegs] at hm
      by_cases hq : pyStrip query = []
      · rw [if_pos hq] at hm; simp at hm
      · rw [if_neg hq] at hm
        have hm2 := List.take_subset mm _ hm
        have hm3 := (List.perm_insertionSort matchLe _).mem_iff.1 hm2
        obtain ⟨seg, hseg, hfm⟩ := List.mem_filterMap.1 hm3
        intro hblank
        split at hfm
        · rename_i hle
          obtain rfl := Option.some.inj hfm
          rw [fuzzy_blank_text sm (pyStrip query) seg.text hblank] at hle
          exact absurd (lt_of_lt_of_le hth hle) (lt_irrefl 0)
        · cases hfm

/-- Witness for C7 (amended): a whitespace query emits nothing, and with a
positive threshold every emitted match has non-blank text. -/
theorem find_blank_guard_witness :
    find_matching_segments zeroSM [⟨0, 1, pyStr ("hello")⟩] (pyStr ("  ")) 5 10 = [] ∧
    (∀ m ∈ find_matching_segments zeroSM [⟨0, 1, pyStr ("hello")⟩] (pyStr ("hi")) 5 10,
      pyStrip m.text ≠ []) := by
  refine ⟨(find_blank_guard zeroSM [⟨0, 1, pyStr ("hello")⟩] (pyStr ("  ")) 5 10).1 (by decide),
    (find_blank_guard zeroSM [⟨0, 1, pyStr ("hello")⟩] (pyStr ("hi")) 5 10).2 (by decide)⟩

/-! ### Helper lemmas: grouping, gathering, keyed reassembly -/

lemma splitGroups_flatten (k : Nat) (l : List α) : (splitGroups k l).flatten = l := by
  induction l using splitGroups.induct k with
  | case1 => simp [splitGroups]
  | case2 x xs ih => rw [splitGroups]; simp [ih, List.take_append_drop]

lemma splitGroups_ne_nil (k : Nat) (l : List α) : ∀ g ∈ splitGroups k l, g ≠ [] := by
  induction l using splitGroups.induct k with
  | case1 => intro g hg; rw [splitGroups] at hg; cases hg
  | case2 x xs ih =>
    intro g hg
    rw [splitGroups] at hg
    rcases List.mem_cons.1 hg with rfl | hg
    · exact List.cons_ne_nil _ _
    · exact ih g hg

lemma splitGroups_length_pos (k : Nat) (l : List α) (h : l ≠ []) :
    0 < (splitGroups k l).length := by
  cases l with
  | nil => exact absurd rfl h
  | cons x xs => rw [splitGroups]; simp

lemma gatherResults_ok (F : α → Except PyString β) (f : α → β) :
    ∀ l : List α, (∀ a ∈ l, F a = .ok (f a)) → gatherResults F l = .ok (l.map f) := by
  intro l
  induction l with
  | nil => intro _; rfl
  | cons a as ih =>
    intro h
    rw [gatherResults, h a (List.mem_cons_self a as),
      ih (fun b hb => h b (List.mem_cons_of_mem a hb))]
    rfl

lemma filterMap_eq_map_of (f : α → Option β) (g : α → β) :
    ∀ l : List α, (∀ a ∈ l, f a = some (g a)) → l.filterMap f = l.map g := by
  intro l
  induction l with
  | nil => intro _; rfl
  | cons a as ih =>
    intro h
    rw [List.filterMap_cons, h a (List.mem_cons_self a as),
      ih (fun b hb => h b (List.mem_cons_of_mem a hb)), List.map_cons]

lemma nodup_keys_eq {l : List (Nat × PyString)} (hnd : (l.map Prod.fst).Nodup)
    {i : Nat} {a b : PyString} (ha : (i, a) ∈ l) (hb : (i, b) ∈ l) : a = b := by
  induction l with
  | nil => cases ha
  | cons p ps ih =>
    rw [List.map_cons] at hnd
    have hnd' := List.nodup_cons.1 hnd
    rcases List.mem_cons.1 ha with h1 | h1
    · rcases List.mem_cons.1 hb with h2 | h2
      · rw [← h1] at h2
        injection h2 with _ h2b
        exact h2b.symm
      · cases h1
        exact absurd (List.mem_map.2 ⟨(i, b), h2, rfl⟩) hnd'.1
    · rcases List.mem_cons.1 hb with h2 | h2
      · cases h2
        exact absurd (List.mem_map.2 ⟨(i, a), h1, rfl⟩) hnd'.1
      · exact ih hnd'.2 h1 h2

lemma list_eq_map_getD (l : List α) (d : α) :
    l = (List.range l.length).map (fun i => l.getD i d) := by
  apply List.ext_get
  · simp
  · intro j h1 h2
    rw [List.get_map]
    rw [List.get_range]
    rw [List.getD_eq_getElem?_getD, List.getElem?_eq_getElem h1]
    rfl

lemma sortKey_range (l : List (Nat × PyString)) (n : Nat)
    (h : (l.map Prod.fst).Perm (List.range n)) :
    (List.insertionSort corrLe l).map Prod.fst = List.range n := by
  have hperm : (List.insertionSort corrLe l).Perm l := List.perm_insertionSort corrLe l
  have hp2 : ((List.insertionSort corrLe l).map Prod.fst).Perm (List.range n) :=
    (hperm.map Prod.fst).trans h
  have hsorted : List.Sorted (· ≤ ·) ((List.insertionSort corrLe l).map Prod.fst) := by
    rw [List.Sorted, List.pairwise_map]
    exact List.sorted_insertionSort corrLe l
  exact List.eq_of_perm_of_sorted hp2 hsorted ((List.sorted_lt_range n).imp le_of_lt)

lemma sortKey_length (l : List (Nat × PyString)) (n : Nat)
    (h : (l.map Prod.fst).Perm (List.range n)) :
    (List.insertionSort corrLe l).length = n := by
  have := congrArg List.length (sortKey_range l n h)
  simpa using this

lemma sorted_getD_fst (l : List (Nat × PyString)) (n : Nat)
    (h : (l.map Prod.fst).Perm (List.range n)) (i : Nat) (hi : i < n) :
    ((List.insertionSort corrLe l).getD i (0, [])).1 = i := by
  have hk := sortKey_range l n h
  have hlen := sortKey_length l n h
  have hi' : i < (List.insertionSort corrLe l).length := by omega
  have h1 : ((List.insertionSort corrLe l).map Prod.fst)[i]? = some i := by
    rw [hk, List.getElem?_range hi]
  rw [List.getElem?_map, List.getElem?_eq_getElem hi', Option.map_some'] at h1
  rw [List.getD_eq_getElem?_getD, List.getElem?_eq_getElem hi']
  exact Option.some.inj h1

lemma sorted_getD_of_mem (l : List (Nat × PyString)) (n : Nat)
    (h : (l.map Prod.fst).Perm (List.range n)) (i : Nat) (t : PyString)
    (hmem : (i, t) ∈ l) :
    (List.insertionSort corrLe l).getD i (0, []) = (i, t) := by
  have hk := sortKey_range l n h
  have hlen := sortKey_length l n h
  have hmem' : (i, t) ∈ List.insertionSort corrLe l :=
    (List.perm_insertionSort corrLe l).mem_iff.2 hmem
  obtain ⟨j, hj, hget⟩ := List.mem_iff_getElem.1 hmem'
  have hji : j = i := by
    have hjn : j < n := by omega
    have h1 : ((List.insertionSort corrLe l).map Prod.fst)[j]? = some j := by
      rw [hk, List.getElem?_range hjn]
    rw [List.getElem?_map, List.getElem?_eq_getElem hj, Option.map_some', hget] at h1
    exact (Option.some.inj h1).symm
  subst hji
  rw [List.getD_eq_getElem?_getD, List.getElem?_eq_getElem hj]
  exact hget

lemma reassemble_eq (segments : List Segment) (l : List (Nat × PyString))
    (h : (l.map Prod.fst).Perm (List.range segments.length)) :
    reassemble segments l =
      (List.range segments.length).map (fun i =>
        Segment.mk (segments.getD i default).start (segments.getD i default).«end»
          ((List.insertionSort corrLe l).getD i (0, [])).2) := by
  have hlen := sortKey_length l segments.length h
  rw [reassemble]
  conv_lhs => rw [list_eq_map_getD (List.insertionSort corrLe l) (0, []), hlen]
  rw [List.filterMap_map]
  apply filterMap_eq_map_of
  intro i hi
  have hi' : i < segments.length := List.mem_range.1 hi
  dsimp only [Function.comp]
  rw [sorted_getD_fst l segments.length h i hi']
  rw [List.get?_eq_getElem?, List.getElem?_eq_getElem hi']
  have hD : segments.getD i default = segments[i] := by
    rw [List.getD_eq_getElem?_getD, List.getElem?_eq_getElem hi']
    rfl
  rw [hD]
  rfl

lemma corr_group_keys (llm : CorrLLM) (prompt : PyString) (g : List (Nat × Segment)) :
    (correct_segment_group llm prompt g).map Prod.fst = g.map Prod.fst := by
  rw [correct_segment_group]
  cases llm prompt (corrInputs g) with
  | error e =>
    rw [List.map_map]
    exact List.map_congr_left (fun a _ => rfl)
  | ok res =>
    rw [List.map_map]
    conv_rhs => rw [← List.enum_map_snd g, List.map_map]
    apply List.map_congr_left
    intro p _
    dsimp only [Function.comp]
    cases res.find? (fun s => s.id == (p.1 : Int) + 1) <;> rfl

lemma corr_flatten_keys (llm : CorrLLM) (prompt : PyString) (k : Nat)
    (segments : List Segment) :
    (((splitGroups k segments.enum).map
        (fun g => correct_segment_group llm prompt g)).flatten).map Prod.fst =
      List.range segments.length := by
  rw [List.map_flatten, List.map_map]
  have hcg : (splitGroups k segments.enum).map
        (List.map Prod.fst ∘ fun g => correct_segment_group llm prompt g) =
      (splitGroups k segments.enum).map (List.map Prod.fst) :=
    List.map_congr_left (fun g _ => corr_group_keys llm prompt g)
  rw [hcg, ← List.map_flatten, splitGroups_flatten, List.enum_map_fst]

lemma corr_retry_ok (llm : CorrLLM) (prompt : PyString) (g : List (Nat × Segment)) :
    (correct_segment_group_with_retry llm prompt g).1 =
      .ok (correct_segment_group llm prompt g) := by
  rw [correct_segment_group_with_retry, retryRun, if_neg (by omega), retryAux]

lemma correct_pipeline_ok (llm : CorrLLM) (prompt : PyString) (k : Nat)
    (segments : List Segment) :
    correct_transcript_async llm prompt k segments =
      .ok (reassemble segments (((splitGroups k segments.enum).map
        (fun g => correct_segment_group llm prompt g)).flatten)) := by
  rw [correct_transcript_async]
  rw [gatherResults_ok (fun g => (correct_segment_group_with_retry llm prompt g).1)
    (fun g => correct_segment_group llm prompt g) _ (fun g _ => corr_retry_ok llm prompt g)]

lemma mem_group_enum (k : Nat) (segments : List Segment) (g : List (Nat × Segment))
    (hg : g ∈ splitGroups k segments.enum) (idx : Nat) (s : Segment)
    (hmem : (idx, s) ∈ g) :
    idx < segments.length ∧ s = segments.getD idx default := by
  have h1 : (idx, s) ∈ segments.enum := by
    rw [← splitGroups_flatten k segments.enum]
    exact List.mem_flatten.2 ⟨g, hg, hmem⟩
  have h2 := List.mem_enum h1
  refine ⟨h2.1, ?_⟩
  rw [h2.2, List.getD_eq_getElem?_getD, List.getElem?_eq_getElem h2.1]
  rfl

lemma splitGroups_eq_single (k : Nat) (l : List α) (hne : l ≠ []) (hlen : l.length ≤ k) :
    splitGroups k l = [l] := by
  obtain ⟨x, xs, rfl⟩ := List.exists_cons_of_ne_nil hne
  rw [splitGroups]
  have h1 : xs.take (k - 1) = xs := List.take_of_length_le (by simp at hlen; omega)
  have h2 : xs.drop (k - 1) = [] := List.drop_eq_nil_of_le (by simp at hlen; omega)
  rw [h1, h2, splitGroups]

lemma edit_segment_group_ok (llm : EdLLM) (prompt : PyString) (g0 : Segment)
    (rest : List Segment) :
    edit_segment_group llm prompt (g0 :: rest) =
      .ok (edit_group_parts llm prompt (g0 :: rest)) := by
  rw [edit_segment_group, edit_group_parts]
  cases llm prompt (g0 :: rest) <;> rfl

lemma edit_retry_ok (llm : EdLLM) (prompt : PyString) (g : List Segment)
    (hgne : g ≠ []) :
    (edit_segment_group_with_retry llm prompt g).1 =
      .ok (edit_group_parts llm prompt g) := by
  obtain ⟨g0, rest, rfl⟩ := List.exists_cons_of_ne_nil hgne
  rw [edit_segment_group_with_retry, retryRun, if_neg (by omega), retryAux,
    edit_segment_group_ok llm prompt g0 rest]

/-! ### C1 -/

/-- C1: for every transcript, every `segments_per_group ≥ 1` (and any
`max_concurrency ≥ 1`, which bounds in-flight groups but never affects
values), the corrected transcript has exactly as many segments as the input,
segment `i` keeps the start and end of input segment `i` and differs at most
in its text; and the result is the same for every completion order of the
concurrent groups (any permutation `res` of the per-group result lists),
because reassembly sorts by original segment index. -/
theorem correct_transcript_structure (llm : CorrLLM) (prompt : PyString) (k : Nat)
    (segments : List Segment) (res : List (List (Nat × PyString)))
    (hk : 1 ≤ k)
    (hres : res.Perm ((splitGroups k segments.enum).map
      (fun g => correct_segment_group llm prompt g))) :
    correct_transcript_async llm prompt k segments =
      .ok (reassemble segments res.flatten) ∧
    (reassemble segments res.flatten).length = segments.length ∧
    ∀ i (hi : i < segments.length), ∃ t,
      (reassemble segments res.flatten).get? i =
        some (Segment.mk (segments.get ⟨i, hi⟩).start (segments.get ⟨i, hi⟩).«end» t) := by
  have hkeys0 := corr_flatten_keys llm prompt k segments
  have hflat : res.flatten.Perm
      (((splitGroups k segments.enum).map
        (fun g => correct_segment_group llm prompt g)).flatten) := hres.flatten
  have hkeys : (res.flatten.map Prod.fst).Perm (List.range segments.length) := by
    rw [← hkeys0]
    exact hflat.map Prod.fst
  have hkeys0p : ((((splitGroups k segments.enum).map
      (fun g => correct_segment_group llm prompt g)).flatten).map Prod.fst).Perm
        (List.range segments.length) := by
    rw [hkeys0]
  have hre1 := reassemble_eq segments res.flatten hkeys
  have hre0 := reassemble_eq segments _ hkeys0p
  have htext : ∀ i ∈ List.range segments.length,
      ((List.insertionSort corrLe (((splitGroups k segments.enum).map
        (fun g => correct_segment_group llm prompt g)).flatten)).getD i (0, [])).2 =
      ((List.insertionSort corrLe res.flatten).getD i (0, [])).2 := by
    intro i hi
    have hi' := List.mem_range.1 hi
    have hfst0 := sorted_getD_fst _ segments.length hkeys0p i hi'
    have hlen0 := sortKey_length _ segments.length hkeys0p
    have hin_sorted : (List.insertionSort corrLe (((splitGroups k segments.enum).map
        (fun g => correct_segment_group llm prompt g)).flatten)).getD i (0, []) ∈
        List.insertionSort corrLe (((splitGroups k segments.enum).map
          (fun g => correct_segment_group llm prompt g)).flatten) := by
      rw [List.getD_eq_getElem?_getD, List.getElem?_eq_getElem (by omega)]
      exact List.getElem_mem _
    have hin0 := (List.perm_insertionSort corrLe _).mem_iff.1 hin_sorted
    have hin_res : (List.insertionSort corrLe (((splitGroups k segments.enum).map
        (fun g => correct_segment_group llm prompt g)).flatten)).getD i (0, []) ∈
        res.flatten := hflat.mem_iff.2 hin0
    have hpair : (List.insertionSort corrLe (((splitGroups k segments.enum).map
        (fun g => correct_segment_group llm prompt g)).flatten)).getD i (0, []) =
        (i, ((List.insertionSort corrLe (((splitGroups k segments.enum).map
          (fun g => correct_segment_group llm prompt g)).flatten)).getD i (0, [])).2) :=
      Prod.ext hfst0 rfl
    rw [hpair] at hin_res
    have hv := sorted_getD_of_mem res.flatten segments.length hkeys i _ hin_res
    rw [hv]
  refine ⟨?_, ?_, ?_⟩
  · rw [correct_pipeline_ok llm prompt k segments]
    congr 1
    rw [hre1, hre0]
    exact List.map_congr_left (fun i hi => by rw [htext i hi])
  · rw [hre1]
    simp
  · intro i hi
    refine ⟨((List.insertionSort corrLe res.flatten).getD i (0, [])).2, ?_⟩
    rw [hre1]
    rw [List.get?_eq_getElem?, List.getElem?_map, List.getElem?_range hi, Option.map_some']
    rw [show segments.getD i default = segments.get ⟨i, hi⟩ from by
      rw [List.getD_eq_getElem?_getD, List.getElem?_eq_getElem hi]; rfl]

/-- Witness for C1: three segments in groups of two, with an LLM that always
raises, and the identity completion order. -/
theorem correct_transcript_structure_witness :
    correct_transcript_async (fun _ _ => .error (pyStr ("quota"))) (pyStr ("p")) 2
      [⟨0, 1, pyStr ("a")⟩, ⟨1, 2, pyStr ("b")⟩, ⟨2, 3, pyStr ("c")⟩] =
      .ok (reassemble [⟨0, 1, pyStr ("a")⟩, ⟨1, 2, pyStr ("b")⟩, ⟨2, 3, pyStr ("c")⟩]
        ((splitGroups 2 ([⟨0, 1, pyStr ("a")⟩, ⟨1, 2, pyStr ("b")⟩,
            ⟨2, 3, pyStr ("c")⟩] : List Segment).enum).map
          (fun g => correct_segment_group (fun _ _ => .error (pyStr ("quota")))
            (pyStr ("p")) g)).flatten) ∧
    (reassemble [⟨0, 1, pyStr ("a")⟩, ⟨1, 2, pyStr ("b")⟩, ⟨2, 3, pyStr ("c")⟩]
        ((splitGroups 2 ([⟨0, 1, pyStr ("a")⟩, ⟨1, 2, pyStr ("b")⟩,
            ⟨2, 3, pyStr ("c")⟩] : List Segment).enum).map
          (fun g => correct_segment_group (fun _ _ => .error (pyStr ("quota")))
            (pyStr ("p")) g)).flatten).length =
      ([⟨0, 1, pyStr ("a")⟩, ⟨1, 2, pyStr ("b")⟩, ⟨2, 3, pyStr ("c")⟩] : List Segment).length ∧
    ∀ i (hi : i < ([⟨0, 1, pyStr ("a")⟩, ⟨1, 2, pyStr ("b")⟩,
        ⟨2, 3, pyStr ("c")⟩] : List Segment).length), ∃ t,
      (reassemble [⟨0, 1, pyStr ("a")⟩, ⟨1, 2, pyStr ("b")⟩, ⟨2, 3, pyStr ("c")⟩]
        ((splitGroups 2 ([⟨0, 1, pyStr ("a")⟩, ⟨1, 2, pyStr ("b")⟩,
            ⟨2, 3, pyStr ("c")⟩] : List Segment).enum).map
          (fun g => correct_segment_group (fun _ _ => .error (pyStr ("quota")))
            (pyStr ("p")) g)).flatten).get? i =
        some (Segment.mk (([⟨0, 1, pyStr ("a")⟩, ⟨1, 2, pyStr ("b")⟩,
            ⟨2, 3, pyStr ("c")⟩] : List Segment).get ⟨i, hi⟩).start
          (([⟨0, 1, pyStr ("a")⟩, ⟨1, 2, pyStr ("b")⟩,
            ⟨2, 3, pyStr ("c")⟩] : List Segment).get ⟨i, hi⟩).«end» t) :=
  correct_transcript_structure (fun _ _ => .error (pyStr ("quota"))) (pyStr ("p")) 2
    [⟨0, 1, pyStr ("a")⟩, ⟨1, 2, pyStr ("b")⟩, ⟨2, 3, pyStr ("c")⟩] _
    (by decide) (List.Perm.refl _)

/-! ### C4 -/

/-- C4: a correction group whose LLM call fails (on every attempt — the call
is deterministic in the model, and the retry wrapper re-enters the same body)
contributes its original segments unchanged: the reassembled output keeps
every one of the group's segments identical in start, end and text, and the
batch as a whole loses no segment. -/
theorem correct_group_failure_passthrough (llm : CorrLLM) (prompt : PyString)
    (k : Nat) (segments : List Segment) (g : List (Nat × Segment)) (e : PyString)
    (hk : 1 ≤ k) (hg : g ∈ splitGroups k segments.enum)
    (he : llm prompt (corrInputs g) = .error e) :
    correct_transcript_async llm prompt k segments =
      .ok (reassemble segments (((splitGroups k segments.enum).map
        (fun g => correct_segment_group llm prompt g)).flatten)) ∧
    (reassemble segments (((splitGroups k segments.enum).map
        (fun g => correct_segment_group llm prompt g)).flatten)).length =
      segments.length ∧
    ∀ idx s, (idx, s) ∈ g →
      (reassemble segments (((splitGroups k segments.enum).map
        (fun g => correct_segment_group llm prompt g)).flatten)).get? idx =
        some s := by
  have hkeys0 := corr_flatten_keys llm prompt k segments
  have hkeys0p : ((((splitGroups k segments.enum).map
      (fun g => correct_segment_group llm prompt g)).flatten).map Prod.fst).Perm
        (List.range segments.length) := by
    rw [hkeys0]
  have hre0 := reassemble_eq segments _ hkeys0p
  refine ⟨correct_pipeline_ok llm prompt k segments, ?_, ?_⟩
  · rw [hre0]
    simp
  · intro idx s hmem
    obtain ⟨hidx, hs⟩ := mem_group_enum k segments g hg idx s hmem
    have hfg : correct_segment_group llm prompt g = g.map (fun q => (q.1, q.2.text)) := by
      rw [correct_segment_group, he]
    have hmem2 : (idx, s.text) ∈ ((splitGroups k segments.enum).map
        (fun g => correct_segment_group llm prompt g)).flatten := by
      apply List.mem_flatten.2
      refine ⟨correct_segment_group llm prompt g, List.mem_map_of_mem _ hg, ?_⟩
      rw [hfg]
      exact List.mem_map_of_mem _ hmem
    have hT := sorted_getD_of_mem _ segments.length hkeys0p idx s.text hmem2
    rw [hre0]
    rw [List.get?_eq_getElem?, List.getElem?_map, List.getElem?_range hidx, Option.map_some']
    rw [hT, ← hs]

/-- Witness for C4: two segments in one group whose LLM call raises; both come
back unchanged. -/
theorem correct_group_failure_passthrough_witness :
    correct_transcript_async (fun _ _ => .error (pyStr ("quota"))) (pyStr ("p")) 2
      [⟨0, 1, pyStr ("a")⟩, ⟨1, 2, pyStr ("b")⟩] =
      .ok (reassemble [⟨0, 1, pyStr ("a")⟩, ⟨1, 2, pyStr ("b")⟩]
        ((splitGroups 2 ([⟨0, 1, pyStr ("a")⟩,
            ⟨1, 2, pyStr ("b")⟩] : List Segment).enum).map
          (fun g => correct_segment_group (fun _ _ => .error (pyStr ("quota")))
            (pyStr ("p")) g)).flatten) ∧
    (reassemble [⟨0, 1, pyStr ("a")⟩, ⟨1, 2, pyStr ("b")⟩]
        ((splitGroups 2 ([⟨0, 1, pyStr ("a")⟩,
            ⟨1, 2, pyStr ("b")⟩] : List Segment).enum).map
          (fun g => correct_segment_group (fun _ _ => .error (pyStr ("quota")))
            (pyStr ("p")) g)).flatten).length =
      ([⟨0, 1, pyStr ("a")⟩, ⟨1, 2, pyStr ("b")⟩] : List Segment).length ∧
    ∀ idx s, (idx, s) ∈ ([⟨0, 1, pyStr ("a")⟩, ⟨1, 2, pyStr ("b")⟩] : List Segment).enum →
      (reassemble [⟨0, 1, pyStr ("a")⟩, ⟨1, 2, pyStr ("b")⟩]
        ((splitGroups 2 ([⟨0, 1, pyStr ("a")⟩,
            ⟨1, 2, pyStr ("b")⟩] : List Segment).enum).map
          (fun g => correct_segment_group (fun _ _ => .error (pyStr ("quota")))
            (pyStr ("p")) g)).flatten).get? idx = some s :=
  correct_group_failure_passthrough (fun _ _ => .error (pyStr ("quota"))) (pyStr ("p"))
    2 [⟨0, 1, pyStr ("a")⟩, ⟨1, 2, pyStr ("b")⟩]
    ([⟨0, 1, pyStr ("a")⟩, ⟨1, 2, pyStr ("b")⟩] : List Segment).enum
    (pyStr ("quota")) (by decide)
    (by
      rw [splitGroups_eq_single 2
        (([⟨0, 1, pyStr ("a")⟩, ⟨1, 2, pyStr ("b")⟩] : List Segment).enum)
        (by simp) (by simp)]
      exact List.mem_singleton.2 rfl)
    rfl

/-! ### C8 -/

/-- C8: an edition group whose LLM call fails degrades to exactly one part —
start of the group's first segment, end of its last, the space-joined original
texts, and no sources — and the final edited transcript is the concatenation
of the per-group part lists in group order. -/
theorem edit_failure_degrades (llm : EdLLM) (prompt : PyString) (k : Nat)
    (segments : List Segment) (hk : 1 ≤ k) (hs : segments ≠ []) :
    edit_transcript_async llm prompt k segments =
      .ok (((splitGroups k segments).map
        (fun g => edit_group_parts llm prompt g)).flatten) ∧
    ∀ g ∈ splitGroups k segments, ∀ e, llm prompt g = .error e →
      edit_group_parts llm prompt g =
        [⟨g.headI.start, g.getLastI.«end», joinSpace (g.map Segment.text), []⟩] := by
  constructor
  · rw [edit_transcript_async]
    rw [gatherResults_ok (fun g => (edit_segment_group_with_retry llm prompt g).1)
      (fun g => edit_group_parts llm prompt g) _
      (fun g hb => edit_retry_ok llm prompt g (splitGroups_ne_nil k segments g hb))]
  · intro g hgmem e he
    obtain ⟨g0, rest, rfl⟩ :=
      List.exists_cons_of_ne_nil (splitGroups_ne_nil k segments _ hgmem)
    have hlast : (g0 :: rest).getLastI = (g0 :: rest).getLast (List.cons_ne_nil g0 rest) := by
      rw [List.getLastI_eq_getLast?, List.getLast?_eq_getLast _ (List.cons_ne_nil g0 rest)]
    simp only [edit_group_parts, he]
    rw [hlast]
    rfl

/-- Witness for C8: three segments in groups of two with an LLM that always
raises `429`; the whole edited transcript is the concatenation of the two
degraded parts. -/
theorem edit_failure_degrades_witness :
    edit_transcript_async (fun _ _ => .error (pyStr ("429"))) (pyStr ("p")) 2
      [⟨0, 1, pyStr ("a")⟩, ⟨1, 2, pyStr ("b")⟩, ⟨2, 3, pyStr ("c")⟩] =
      .ok (((splitGroups 2 ([⟨0, 1, pyStr ("a")⟩, ⟨1, 2, pyStr ("b")⟩,
          ⟨2, 3, pyStr ("c")⟩] : List Segment)).map
        (fun g => edit_group_parts (fun _ _ => .error (pyStr ("429")))
          (pyStr ("p")) g)).flatten) ∧
    ∀ g ∈ splitGroups 2 ([⟨0, 1, pyStr ("a")⟩, ⟨1, 2, pyStr ("b")⟩,
        ⟨2, 3, pyStr ("c")⟩] : List Segment), ∀ e,
      (fun _ _ => (.error (pyStr ("429")) : Except PyString (List EditedPartOutput)))
          (pyStr ("p")) g = .error e →
      edit_group_parts (fun _ _ => .error (pyStr ("429"))) (pyStr ("p")) g =
        [⟨g.headI.start, g.getLastI.«end», joinSpace (g.map Segment.text), []⟩] :=
  edit_failure_degrades (fun _ _ => .error (pyStr ("429"))) (pyStr ("p")) 2
    [⟨0, 1, pyStr ("a")⟩, ⟨1, 2, pyStr ("b")⟩, ⟨2, 3, pyStr ("c")⟩]
    (by decide) (by decide)

end Lessons
